import Mathlib

/-!
Verification of the shawty URL-shortener core (Go sources under
internal/service/shortener.go, internal/util/codegen.go,
internal/repo and the url_records schema).

The embedding:

* `URLRecord` mirrors `model.URLRecord` (timestamps as `Nat`).
* `GoError` mirrors the error values the service inspects: `sql.ErrNoRows`,
  `*pq.Error` (with `Code`, `Detail`, `Message` strings) and any other error.
* `RepoOps σ` mirrors the `repo.URLRepo` interface, over an explicit
  repository state `σ`.
* `step`/`runSteps` are a small-step translation of `shortener.Shorten`:
  each step performs exactly one storage call, so that concurrent
  interleavings of several calls can be expressed (`poolRun`).  The thread
  states correspond to the program points of the Go function:
  the two fast-path `GetByLong` iterations, the bounded insert loop and the
  single re-read after a long-URL constraint violation.
* `storeRepo` instantiates the repository with the Postgres semantics of the
  `url_records` table (two uniqueness constraints, constraint-violation
  errors in the wire format used both by Postgres and by the repository's
  own mock: `Key (code)=(..)` / `Key (long_url)=(..)`).
* `envRepo` instantiates the repository with an arbitrary stream of
  responses, to reason about infrastructure failures and adversarial
  orderings.
* `generateCode` models `util.GenerateCode` over an explicit stream of
  draws from the secure random source; a failed or exhausted draw makes the
  call abort (the Go code dereferences the nil `*big.Int` returned on error,
  so no string is ever produced from a failed draw).
-/

deriving instance DecidableEq for Except

namespace Shawty

/-- Mirrors `model.URLRecord` (`created_at` as an abstract tick). -/
structure URLRecord where
  id : String
  code : String
  longUrl : String
  shortUrl : String
  createdAt : Nat
deriving DecidableEq

/-- The error values `service.Shorten`/`Resolve` can observe from the
repository: `sql.ErrNoRows`, a `*pq.Error` (fields `Code`, `Detail`,
`Message`), or any other error. -/
inductive GoError where
  | noRows : GoError
  | pqError (pqCode detail message : String) : GoError
  | other (msg : String) : GoError
deriving DecidableEq

/-- `pq.Error.Detail` of an error value (empty for non-pq errors). -/
def GoError.detail : GoError → String
  | .pqError _ d _ => d
  | _ => ""

/-- `pq.Error.Message` of an error value (empty for non-pq errors). -/
def GoError.message : GoError → String
  | .pqError _ _ m => m
  | _ => ""

/-- Does `pat` occur at the start of `s`?  (Helper for `strings.Contains`.) -/
def strStartsWith : List Char → List Char → Bool
  | _, [] => true
  | [], _ :: _ => false
  | c :: cs, p :: ps => c = p && strStartsWith cs ps

/-- Does `pat` occur somewhere in `s`?  (Helper for `strings.Contains`.) -/
def strHasSub : List Char → List Char → Bool
  | [], pat => strStartsWith [] pat
  | c :: cs, pat => strStartsWith (c :: cs) pat || strHasSub cs pat

/-- Go's `strings.Contains s pat`. -/
def goContains (s pat : String) : Bool :=
  strHasSub s.data pat.data

/-- `errors.As(err, &pqErr) && pqErr.Code == PgUniqueViolation` for
`PgUniqueViolation = "23505"` (shortener.go line 16). -/
def isPqUnique : GoError → Bool
  | .pqError c _ _ => c == "23505"
  | _ => false

/-- The classification used on shortener.go line 50: a unique violation whose
detail or message mentions `code` is treated as a code collision. -/
def isCodeColl (e : GoError) : Bool :=
  isPqUnique e && (goContains e.detail "code" || goContains e.message "code")

/-- The test on shortener.go line 54: a unique violation whose detail or
message mentions `long_url` (only reached when `isCodeColl` failed). -/
def isLongColl (e : GoError) : Bool :=
  isPqUnique e && (goContains e.detail "long_url" || goContains e.message "long_url")

/-- An insert response that the service classifies as a code collision. -/
def respCodeColl : Except GoError URLRecord → Bool
  | .error e => isCodeColl e
  | .ok _ => false

/-- Is a repository response successful (`err == nil`)? -/
def respOk : Except GoError URLRecord → Bool
  | .ok _ => true
  | .error _ => false

/-- The storage operations the service issues, with their arguments. -/
inductive Op where
  | getByLong (long : String) : Op
  | getByCode (code : String) : Op
  | insert (id code long short : String) : Op
deriving DecidableEq

/-- Is an operation an insert attempt? -/
def isInsertOp : Op → Bool
  | .insert _ _ _ _ => true
  | _ => false

/-- Is an operation a lookup by long URL? -/
def isLongLookupOp : Op → Bool
  | .getByLong _ => true
  | _ => false

/-- The per-call inputs of `Shorten`: the base URL, the long URL, and the
streams of values produced by successive `util.GenerateCode` and
`uuid.New().String()` calls. -/
structure Params where
  base : String
  long : String
  codes : Nat → String
  ids : Nat → String

/-- Mirrors the `repo.URLRepo` interface over a repository state `σ`. -/
structure RepoOps (σ : Type) where
  getByLong : σ → String → Except GoError URLRecord × σ
  getByCode : σ → String → Except GoError URLRecord × σ
  insert : σ → String → String → String → String → Except GoError URLRecord × σ

/-- The program points of `shortener.Shorten` between storage calls:
the two fast-path lookup iterations (lines 29-33), the insert attempts
(lines 35-62, `tryInsert a` about to run attempt `a`), the single re-read
after a long-URL violation carrying the original insert error (lines 54-58),
and the returned result. -/
inductive TState where
  | start : TState
  | fast2 : TState
  | tryInsert (attempt : Nat) : TState
  | reread (e : GoError) : TState
  | done (res : Except GoError (URLRecord × Bool)) : TState
deriving DecidableEq

/-- One storage call of `shortener.Shorten`, translated line by line from
shortener.go (first listing).  Returns the new repository state, the next
program point and the storage operations performed (at most one). -/
def step (R : RepoOps σ) (p : Params) (s : σ) : TState → σ × TState × List Op
  | .start =>
    match R.getByLong s p.long with
    | (.ok r, s') => (s', .done (.ok (r, false)), [.getByLong p.long])
    | (.error _, s') => (s', .fast2, [.getByLong p.long])
  | .fast2 =>
    match R.getByLong s p.long with
    | (.ok r, s') => (s', .done (.ok (r, false)), [.getByLong p.long])
    | (.error _, s') => (s', .tryInsert 0, [.getByLong p.long])
  | .tryInsert a =>
    if a < 5 then
      match R.insert s (p.ids a) (p.codes a) p.long (p.base ++ p.codes a) with
      | (.ok r, s') => (s', .done (.ok (r, true)),
          [.insert (p.ids a) (p.codes a) p.long (p.base ++ p.codes a)])
      | (.error e, s') =>
        if !isPqUnique e then
          (s', .done (.error e), [.insert (p.ids a) (p.codes a) p.long (p.base ++ p.codes a)])
        else if goContains e.detail "code" || goContains e.message "code" then
          (s', .tryInsert (a + 1), [.insert (p.ids a) (p.codes a) p.long (p.base ++ p.codes a)])
        else if goContains e.detail "long_url" || goContains e.message "long_url" then
          (s', .reread e, [.insert (p.ids a) (p.codes a) p.long (p.base ++ p.codes a)])
        else
          (s', .done (.error e), [.insert (p.ids a) (p.codes a) p.long (p.base ++ p.codes a)])
    else
      (s, .done (.error (.other "Could not allocate unique code")), [])
  | .reread e =>
    match R.getByLong s p.long with
    | (.ok r, s') => (s', .done (.ok (r, false)), [.getByLong p.long])
    | (.error _, s') => (s', .done (.error e), [.getByLong p.long])
  | .done res => (s, .done res, [])

/-- Iterate `step` for at most `fuel` storage calls, stopping at `done`,
collecting the storage operations in order. -/
def runSteps (R : RepoOps σ) (p : Params) : Nat → σ → TState → σ × TState × List Op
  | 0, s, t => (s, t, [])
  | fuel + 1, s, t =>
    match t with
    | .done res => (s, .done res, [])
    | t =>
      let r1 := step R p s t
      let r2 := runSteps R p fuel r1.1 r1.2.1
      (r2.1, r2.2.1, r1.2.2 ++ r2.2.2)

/-- A complete run of `shortener.Shorten` (8 storage calls always suffice:
2 fast-path lookups, at most 5 insert attempts, at most one re-read). -/
def shortenRun (R : RepoOps σ) (s : σ) (p : Params) : σ × TState × List Op :=
  runSteps R p 9 s .start

/-- `shortener.Resolve` (shortener.go lines 66-73): one point lookup by code,
returning the record's long URL, propagating any error unchanged. -/
def resolveRun (R : RepoOps σ) (s : σ) (code : String) :
    Except GoError String × σ × List Op :=
  match R.getByCode s code with
  | (.ok r, s') => (.ok r.longUrl, s', [.getByCode code])
  | (.error e, s') => (.error e, s', [.getByCode code])

/-! ### The Postgres-backed repository (`repo.PostgresRepo` over `url_records`) -/

/-- The `url_records` table contents. -/
structure Store where
  recs : List URLRecord
deriving DecidableEq

/-- The two uniqueness constraints of the `url_records` schema. -/
def Store.wf (st : Store) : Prop :=
  (st.recs.map URLRecord.code).Nodup ∧ (st.recs.map URLRecord.longUrl).Nodup

instance (st : Store) : Decidable st.wf := by
  unfold Store.wf
  infer_instance

/-- `r` violates neither uniqueness constraint of `st`. -/
def freshFor (st : Store) (r : URLRecord) : Prop :=
  (∀ x ∈ st.recs, ¬(x.code = r.code)) ∧ (∀ x ∈ st.recs, ¬(x.longUrl = r.longUrl))

/-- How a (partial) run of `Shorten` against the Postgres-backed store
relates the store and program point before and after: the store is unchanged
unless the run committed exactly one insert and finished `created = true`,
and any finished successful result either was already finished at the start,
or is a record read from the store (`created = false`), or is the single
freshly committed record (`created = true`). -/
def StoreRunChar (p : Params) (st : Store) (t : TState) (st' : Store) (t' : TState) : Prop :=
  (st' = st ∨ ∃ r, st'.recs = st.recs ++ [r] ∧ t' = TState.done (.ok (r, true)) ∧
    r.longUrl = p.long ∧ freshFor st r) ∧
  (∀ r w, t' = TState.done (.ok (r, w)) →
    t = TState.done (.ok (r, w)) ∨
    (w = false ∧ r ∈ st.recs ∧ r.longUrl = p.long) ∨
    (w = true ∧ st'.recs = st.recs ++ [r] ∧ r.longUrl = p.long ∧ freshFor st r))

/-- The `Detail` field Postgres produces for a violation of the unique
constraint on `code` (also the format used by the repository's mock). -/
def codeViolation (code : String) : GoError :=
  .pqError "23505" ("Key (code)=(" ++ code ++ ") already exists.")
    "duplicate key value violates unique constraint \x22url_records_code_key\x22"

/-- The `Detail` field Postgres produces for a violation of the unique
constraint on `long_url` (also the format used by the repository's mock). -/
def longUrlViolation (long : String) : GoError :=
  .pqError "23505" ("Key (long_url)=(" ++ long ++ ") already exists.")
    "duplicate key value violates unique constraint \x22url_records_long_url_key\x22"

/-- `SELECT .. FROM url_records WHERE long_url=$1` (`sql.ErrNoRows` when no
row matches). -/
def storeGetByLong (st : Store) (long : String) : Except GoError URLRecord :=
  match st.recs.find? (fun r => r.longUrl == long) with
  | some r => .ok r
  | none => .error .noRows

/-- `SELECT .. FROM url_records WHERE code=$1`. -/
def storeGetByCode (st : Store) (code : String) : Except GoError URLRecord :=
  match st.recs.find? (fun r => r.code == code) with
  | some r => .ok r
  | none => .error .noRows

/-- `INSERT INTO url_records ..`: atomic, enforcing the two uniqueness
constraints and reporting which one was violated (the mock checks the code
constraint first). -/
def storeInsert (now : Nat) (st : Store) (id code long short : String) :
    Except GoError URLRecord × Store :=
  if st.recs.any (fun r => r.code == code) then
    (.error (codeViolation code), st)
  else if st.recs.any (fun r => r.longUrl == long) then
    (.error (longUrlViolation long), st)
  else
    let r : URLRecord := ⟨id, code, long, short, now⟩
    (.ok r, ⟨st.recs ++ [r]⟩)

/-- The repository backed by the `url_records` table; `now` is the clock
value the server assigns to `created_at`. -/
def storeRepo (now : Nat) : RepoOps Store where
  getByLong := fun st long => (storeGetByLong st long, st)
  getByCode := fun st code => (storeGetByCode st code, st)
  insert := fun st id code long short => storeInsert now st id code long short

/-! ### The adversarial repository: arbitrary response streams -/

/-- Repository state made of arbitrary response streams with counters: the
`k`-th call of each kind receives the `k`-th response.  This models any
behaviour of the storage layer, including infrastructure failures and
concurrent writers. -/
structure EnvSt where
  longResp : Nat → Except GoError URLRecord
  insResp : Nat → Except GoError URLRecord
  codeResp : Nat → Except GoError URLRecord
  nLong : Nat
  nIns : Nat
  nCode : Nat

/-- Build an adversarial repository state with all counters at zero. -/
def mkEnv (L I C : Nat → Except GoError URLRecord) : EnvSt :=
  ⟨L, I, C, 0, 0, 0⟩

/-- The adversarial repository. -/
def envRepo : RepoOps EnvSt where
  getByLong := fun s _ => (s.longResp s.nLong, { s with nLong := s.nLong + 1 })
  getByCode := fun s _ => (s.codeResp s.nCode, { s with nCode := s.nCode + 1 })
  insert := fun s _ _ _ _ => (s.insResp s.nIns, { s with nIns := s.nIns + 1 })

/-- The insert operations issued by attempts `a, a+1, .., a+k-1`. -/
def insOps (p : Params) : Nat → Nat → List Op
  | _, 0 => []
  | a, k + 1 =>
    Op.insert (p.ids a) (p.codes a) p.long (p.base ++ p.codes a) :: insOps p (a + 1) k

/-! ### Concurrent calls sharing one store -/

/-- One in-flight `Shorten` call: its inputs, its clock, and its current
program point. -/
structure Thread where
  p : Params
  now : Nat
  ts : TState

/-- Let thread `k` perform its next storage call on the shared store. -/
def poolStep (st : Store) (pool : List Thread) (k : Nat) : Store × List Thread :=
  match pool[k]? with
  | none => (st, pool)
  | some th =>
    let r := step (storeRepo th.now) th.p st th.ts
    (r.1, pool.set k { th with ts := r.2.1 })

/-- Run a schedule of thread indices over the shared store. -/
def poolRun : Store → List Thread → List Nat → Store × List Thread
  | st, pool, [] => (st, pool)
  | st, pool, k :: ks =>
    let r := poolStep st pool k
    poolRun r.1 r.2 ks

/-- The invariant maintained by any interleaving of `Shorten` calls:
the store satisfies its uniqueness constraints, every finished successful
call holds a record that is in the store and carries the call's long URL,
and at most one call per long URL has finished with `wasCreated = true`. -/
def PoolInv (st : Store) (pool : List Thread) : Prop :=
  st.wf ∧
    (∀ th ∈ pool, ∀ r w, th.ts = TState.done (.ok (r, w)) →
      r ∈ st.recs ∧ r.longUrl = th.p.long) ∧
    (∀ (i j : Nat) (thi thj : Thread), pool[i]? = some thi → pool[j]? = some thj →
      (∃ ri, thi.ts = TState.done (.ok (ri, true))) →
      (∃ rj, thj.ts = TState.done (.ok (rj, true))) →
      thi.p.long = thj.p.long → i = j)

/-! ### The code generator (`util.GenerateCode`) -/

/-- The alphabet literal of codegen.go line 9. -/
def goChars : List Char :=
  "abcdefghijklmnopqrstuvwxyzABCDEFGHIJKLMNOPQRSTUVWXYZ1234567890".data

/-- Build `n` characters from a stream of draws of the secure random source.
A draw is `none` when `crypto/rand` fails; the Go code then dereferences the
nil `*big.Int` (codegen.go line 15), so the whole call aborts with no string:
modelled as `none`.  An exhausted stream or an out-of-range index aborts
likewise. -/
def genChars : Nat → List (Option Nat) → Option (List Char)
  | 0, _ => some []
  | _ + 1, [] => none
  | _ + 1, none :: _ => none
  | n + 1, some rn :: ds =>
    match goChars[rn]?, genChars n ds with
    | some ch, some cs => some (ch :: cs)
    | _, _ => none

/-- `util.GenerateCode` over an explicit stream of secure random draws. -/
def generateCode (draws : List (Option Nat)) : Option String :=
  (genChars 6 draws).map String.mk

/-- A draw of the random source that failed or was exhausted. -/
def drawFailed : Option (Option Nat) → Bool
  | some (some _) => false
  | _ => true

/-- The spec's alphabet {a-z, A-Z, 0-9}. -/
def specAlphabet (ch : Char) : Prop :=
  ('a' ≤ ch ∧ ch ≤ 'z') ∨ ('A' ≤ ch ∧ ch ≤ 'Z') ∨ ('0' ≤ ch ∧ ch ≤ '9')

instance : DecidablePred specAlphabet := fun ch => by
  unfold specAlphabet
  infer_instance

/-! ## Lemmas about the code generator -/

theorem genChars_length :
    ∀ (n : Nat) (ds : List (Option Nat)) (cs : List Char),
      genChars n ds = some cs → cs.length = n := by
  intro n
  induction n with
  | zero =>
    intro ds cs h
    simp only [genChars, Option.some.injEq] at h
    simp [← h]
  | succ n ih =>
    intro ds cs h
    match ds with
    | [] => simp [genChars] at h
    | none :: ds' => simp [genChars] at h
    | some rn :: ds' =>
      simp only [genChars] at h
      cases hg : goChars[rn]? with
      | none => rw [hg] at h; simp at h
      | some ch =>
        rw [hg] at h
        cases hr : genChars n ds' with
        | none => rw [hr] at h; simp at h
        | some cs' =>
          rw [hr] at h
          simp only [Option.some.injEq] at h
          subst h
          simp [ih ds' cs' hr]

theorem genChars_mem :
    ∀ (n : Nat) (ds : List (Option Nat)) (cs : List Char),
      genChars n ds = some cs → ∀ ch ∈ cs, ch ∈ goChars := by
  intro n
  induction n with
  | zero =>
    intro ds cs h
    simp only [genChars, Option.some.injEq] at h
    simp [← h]
  | succ n ih =>
    intro ds cs h
    match ds with
    | [] => simp [genChars] at h
    | none :: ds' => simp [genChars] at h
    | some rn :: ds' =>
      simp only [genChars] at h
      cases hg : goChars[rn]? with
      | none => rw [hg] at h; simp at h
      | some ch0 =>
        rw [hg] at h
        cases hr : genChars n ds' with
        | none => rw [hr] at h; simp at h
        | some cs' =>
          rw [hr] at h
          simp only [Option.some.injEq] at h
          subst h
          intro ch hch
          rcases List.mem_cons.mp hch with h1 | h2
          · subst h1; exact List.getElem?_mem hg
          · exact ih ds' cs' hr ch h2

theorem genChars_failed :
    ∀ (n : Nat) (ds : List (Option Nat)) (j : Nat),
      j < n → drawFailed ds[j]? = true → genChars n ds = none := by
  intro n
  induction n with
  | zero => intro ds j hj; omega
  | succ n ih =>
    intro ds j hj hfail
    match ds with
    | [] => simp [genChars]
    | none :: ds' => simp [genChars]
    | some rn :: ds' =>
      match j with
      | 0 => simp [drawFailed] at hfail
      | j + 1 =>
        simp only [List.getElem?_cons_succ] at hfail
        have := ih ds' j (by omega) hfail
        simp only [genChars, this]
        cases goChars[rn]? <;> rfl

theorem genChars_all_drawn :
    ∀ (n : Nat) (ds : List (Option Nat)) (cs : List Char),
      genChars n ds = some cs →
      ∀ j, j < n → ∃ rn, ds[j]? = some (some rn) := by
  intro n
  induction n with
  | zero => intro ds cs _ j hj; omega
  | succ n ih =>
    intro ds cs h j hj
    match ds with
    | [] => simp [genChars] at h
    | none :: ds' => simp [genChars] at h
    | some rn :: ds' =>
      match j with
      | 0 => exact ⟨rn, by simp⟩
      | j + 1 =>
        simp only [genChars] at h
        cases hg : goChars[rn]? with
        | none => rw [hg] at h; simp at h
        | some ch =>
          rw [hg] at h
          cases hr : genChars n ds' with
          | none => rw [hr] at h; simp at h
          | some cs' =>
            simp only [List.getElem?_cons_succ]
            exact ih ds' cs' hr j (by omega)

/-! ## Lookup helper lemmas -/

theorem find?_proj_unique {β : Type} [DecidableEq β] (f : URLRecord → β) :
    ∀ (l : List URLRecord) (r : URLRecord),
      (l.map f).Nodup → r ∈ l → l.find? (fun x => f x == f r) = some r := by
  intro l
  induction l with
  | nil => simp
  | cons h t ih =>
    intro r hnd hmem
    simp only [List.map_cons, List.nodup_cons] at hnd
    rcases List.mem_cons.mp hmem with rfl | hmem'
    · simp
    · have hne : (f h == f r) = false := by
        rw [beq_eq_false_iff_ne]
        intro he
        exact hnd.1 (he ▸ List.mem_map_of_mem f hmem')
      simp [List.find?, hne, ih r hnd.2 hmem']

theorem storeGetByCode_not_found (st : Store) (c : String)
    (h : ∀ x ∈ st.recs, ¬(x.code = c)) : storeGetByCode st c = .error .noRows := by
  unfold storeGetByCode
  have : st.recs.find? (fun r => r.code == c) = none := by
    rw [List.find?_eq_none]
    intro x hx
    simp only [beq_iff_eq]
    exact h x hx
  rw [this]

theorem storeGetByCode_found (st : Store) (r : URLRecord)
    (hnd : (st.recs.map URLRecord.code).Nodup) (hmem : r ∈ st.recs) :
    storeGetByCode st r.code = .ok r := by
  unfold storeGetByCode
  rw [find?_proj_unique URLRecord.code st.recs r hnd hmem]

/-! ## Claim theorems for the code generator -/

/-- Claim C8: every value produced by the code generator is a string of
exactly 6 characters, each drawn from the 62-symbol alphabet
{a-z, A-Z, 0-9}; the alphabet literal of codegen.go has exactly 62 distinct
symbols, all of them in that set. -/
theorem claim_C8 :
    ∀ (draws : List (Option Nat)) (s : String),
      generateCode draws = some s →
      s.length = 6 ∧ (∀ ch ∈ s.data, specAlphabet ch) ∧
        goChars.length = 62 ∧ goChars.Nodup := by
  intro draws s h
  simp only [generateCode, Option.map_eq_some'] at h
  obtain ⟨cs, hcs, hs⟩ := h
  subst hs
  refine ⟨genChars_length 6 draws cs hcs, ?_, by decide, by decide⟩
  intro ch hch
  have hmem : ch ∈ goChars := genChars_mem 6 draws cs hcs ch hch
  have halpha : ∀ c ∈ goChars, specAlphabet c := by decide
  exact halpha ch hmem

/-- Witness for C8 at a concrete draw stream. -/
theorem claim_C8_witness :
    generateCode [some 0, some 27, some 61, some 1, some 2, some 3] = some "aB0bcd" ∧
      ("aB0bcd".length = 6 ∧ (∀ ch ∈ "aB0bcd".data, specAlphabet ch) ∧
        goChars.length = 62 ∧ goChars.Nodup) :=
  ⟨by decide, claim_C8 [some 0, some 27, some 61, some 1, some 2, some 3] "aB0bcd" (by decide)⟩

/-- Claim C9: if the secure random source fails (or is exhausted) at any of
the six draws of a generate call, the call aborts with no code produced
(the Go code discards the error value, but the nil big.Int returned on
failure is dereferenced, so the call dies rather than fall back to any other
source); conversely a produced code consumed six successful draws of the
secure source and nothing else. -/
theorem claim_C9 :
    (∀ (draws : List (Option Nat)) (j : Nat),
        j < 6 → drawFailed draws[j]? = true → generateCode draws = none) ∧
      (∀ (draws : List (Option Nat)) (s : String),
        generateCode draws = some s →
        ∀ j, j < 6 → ∃ rn, draws[j]? = some (some rn)) := by
  constructor
  · intro draws j hj hfail
    simp [generateCode, genChars_failed 6 draws j hj hfail]
  · intro draws s h j hj
    simp only [generateCode, Option.map_eq_some'] at h
    obtain ⟨cs, hcs, _⟩ := h
    exact genChars_all_drawn 6 draws cs hcs j hj

/-- Witness for C9: a failed second draw kills the call; the successful call
of the C8 witness consumed six successful draws. -/
theorem claim_C9_witness :
    generateCode [some 0, none, some 2, some 3, some 4, some 5] = none ∧
      (∃ rn, [some 0, some 27, some 61, some 1, some 2, some 3][(4 : Nat)]? =
        some (some rn)) :=
  ⟨claim_C9.1 [some 0, none, some 2, some 3, some 4, some 5] 1 (by decide) (by decide),
    claim_C9.2 [some 0, some 27, some 61, some 1, some 2, some 3] "aB0bcd" (by decide) 4
      (by decide)⟩

/-! ## Claim theorem for resolve -/

/-- Claim C7: `Resolve` performs exactly one point lookup by code and no
writes (the repository state is changed only by the counter of the
adversarial model; the store is untouched): it returns the associated long
URL when the response carries a record, propagates any storage failure
unchanged with no retry, and on a store without the code it fails with the
not-found condition `sql.ErrNoRows`, returning no record attributes. -/
theorem claim_C7 :
    (∀ (es : EnvSt) (c : String) (r : URLRecord),
        es.codeResp es.nCode = .ok r →
        resolveRun envRepo es c =
          (.ok r.longUrl, { es with nCode := es.nCode + 1 }, [.getByCode c])) ∧
      (∀ (es : EnvSt) (c : String) (e : GoError),
        es.codeResp es.nCode = .error e →
        resolveRun envRepo es c =
          (.error e, { es with nCode := es.nCode + 1 }, [.getByCode c])) ∧
      (∀ (now : Nat) (st : Store) (c : String),
        (∀ x ∈ st.recs, ¬(x.code = c)) →
        resolveRun (storeRepo now) st c = (.error .noRows, st, [.getByCode c])) ∧
      (∀ (now : Nat) (st : Store) (r : URLRecord),
        (st.recs.map URLRecord.code).Nodup → r ∈ st.recs →
        resolveRun (storeRepo now) st r.code = (.ok r.longUrl, st, [.getByCode r.code])) := by
  refine ⟨?_, ?_, ?_, ?_⟩
  · intro es c r h
    simp [resolveRun, envRepo, h]
  · intro es c e h
    simp [resolveRun, envRepo, h]
  · intro now st c h
    simp [resolveRun, storeRepo, storeGetByCode_not_found st c h]
  · intro now st r hnd hmem
    simp [resolveRun, storeRepo, storeGetByCode_found st r hnd hmem]

/-- Witness for C7: resolving an unknown code on a one-record store is a
not-found outcome; resolving the record's own code returns its long URL;
an infrastructure failure is propagated unchanged. -/
theorem claim_C7_witness :
    resolveRun (storeRepo 0)
        ⟨[⟨"tid", "TEST01", "https://example.com/test", "https://s/TEST01", 0⟩]⟩
        "doesnotexist" = (.error .noRows,
          ⟨[⟨"tid", "TEST01", "https://example.com/test", "https://s/TEST01", 0⟩]⟩,
          [.getByCode "doesnotexist"]) ∧
      resolveRun (storeRepo 0)
        ⟨[⟨"tid", "TEST01", "https://example.com/test", "https://s/TEST01", 0⟩]⟩
        "TEST01" = (.ok "https://example.com/test",
          ⟨[⟨"tid", "TEST01", "https://example.com/test", "https://s/TEST01", 0⟩]⟩,
          [.getByCode "TEST01"]) ∧
      resolveRun envRepo
        (mkEnv (fun _ => .error .noRows) (fun _ => .error .noRows)
          (fun _ => .error (.other "database connection error"))) "TEST01" =
        (.error (.other "database connection error"),
          { mkEnv (fun _ => .error .noRows) (fun _ => .error .noRows)
              (fun _ => .error (.other "database connection error")) with nCode := 1 },
          [.getByCode "TEST01"]) :=
  ⟨claim_C7.2.2.1 0 ⟨[⟨"tid", "TEST01", "https://example.com/test", "https://s/TEST01", 0⟩]⟩
      "doesnotexist" (by decide),
    claim_C7.2.2.2 0 ⟨[⟨"tid", "TEST01", "https://example.com/test", "https://s/TEST01", 0⟩]⟩
      ⟨"tid", "TEST01", "https://example.com/test", "https://s/TEST01", 0⟩
      (by decide) (by decide),
    claim_C7.2.1 (mkEnv (fun _ => .error .noRows) (fun _ => .error .noRows)
      (fun _ => .error (.other "database connection error"))) "TEST01"
      (.other "database connection error") rfl⟩

/-! ## Run lemmas for the adversarial repository -/

theorem runSteps_done {σ : Type} (R : RepoOps σ) (p : Params) :
    ∀ (fuel : Nat) (s : σ) (res : Except GoError (URLRecord × Bool)),
      runSteps R p fuel s (.done res) = (s, .done res, []) := by
  intro fuel s res
  cases fuel with
  | zero => rfl
  | succ n => rfl

theorem env_getByLong (es : EnvSt) (l : String) :
    envRepo.getByLong es l = (es.longResp es.nLong, { es with nLong := es.nLong + 1 }) := rfl

theorem env_getByCode (es : EnvSt) (c : String) :
    envRepo.getByCode es c = (es.codeResp es.nCode, { es with nCode := es.nCode + 1 }) := rfl

theorem env_insert (es : EnvSt) (i c l s : String) :
    envRepo.insert es i c l s = (es.insResp es.nIns, { es with nIns := es.nIns + 1 }) := rfl

theorem runSteps_env_fastmiss (p : Params) (es : EnvSt) (fuel : Nat)
    (h0 : respOk (es.longResp es.nLong) = false)
    (h1 : respOk (es.longResp (es.nLong + 1)) = false) :
    ∀ s' t' tr,
      runSteps envRepo p fuel { es with nLong := es.nLong + 2 } (.tryInsert 0) =
        (s', t', tr) →
      runSteps envRepo p (fuel + 2) es .start =
        (s', t', Op.getByLong p.long :: Op.getByLong p.long :: tr) := by
  intro s' t' tr h
  cases hL0 : es.longResp es.nLong with
  | ok r => rw [hL0] at h0; simp [respOk] at h0
  | error e0 =>
    cases hL1 : es.longResp (es.nLong + 1) with
    | ok r => rw [hL1] at h1; simp [respOk] at h1
    | error e1 =>
      have h' : runSteps envRepo p fuel { es with nLong := es.nLong + 1 + 1 }
          (.tryInsert 0) = (s', t', tr) := h
      show (runSteps envRepo p (fuel + 1 + 1) es .start) = _
      simp only [runSteps, step, env_getByLong, hL0, hL1, h']
      rfl

theorem runSteps_env_skip (p : Params) :
    ∀ (k : Nat) (es : EnvSt) (fuel a : Nat),
      es.nIns = a → a + k ≤ 5 → k ≤ fuel →
      (∀ j, j < k → respCodeColl (es.insResp (a + j)) = true) →
      ∀ s' t' tr,
        runSteps envRepo p (fuel - k) { es with nIns := a + k } (.tryInsert (a + k)) =
          (s', t', tr) →
        runSteps envRepo p fuel es (.tryInsert a) = (s', t', insOps p a k ++ tr) := by
  intro k
  induction k with
  | zero =>
    intro es fuel a ha _ _ _ s' t' tr h
    have hes : { es with nIns := a + 0 } = es := by
      cases es
      simp_all
    rw [hes] at h
    simpa [insOps] using h
  | succ k ih =>
    intro es fuel a ha hk hfuel hcoll s' t' tr h
    match fuel, hfuel with
    | fuel + 1, _ =>
      have ha5 : a < 5 := by omega
      have hc0 : respCodeColl (es.insResp a) = true := by
        have := hcoll 0 (by omega)
        simpa using this
      cases hI : es.insResp a with
      | ok r => rw [hI] at hc0; simp [respCodeColl] at hc0
      | error e =>
        rw [hI] at hc0
        simp only [respCodeColl, isCodeColl, Bool.and_eq_true] at hc0
        rw [show (fuel + 1) - (k + 1) = fuel - k by omega,
          show a + (k + 1) = (a + 1) + k by omega] at h
        have hIH := ih { es with nIns := a + 1 } fuel (a + 1) rfl (by omega) (by omega)
          (fun j hj => by
            have := hcoll (j + 1) (by omega)
            simpa [show a + (j + 1) = (a + 1) + j by omega] using this)
          s' t' tr h
        show runSteps envRepo p (fuel + 1) es (.tryInsert a) = _
        simp only [runSteps, step, env_insert, ha, hI, hc0.1, hc0.2, ha5,
          Bool.not_true, if_pos, if_true, Bool.false_eq_true, if_false, hIH,
          insOps]
        rfl

theorem insOps_countP_insert (p : Params) :
    ∀ (k a : Nat), (insOps p a k).countP isInsertOp = k := by
  intro k
  induction k with
  | zero => intro a; simp [insOps]
  | succ k ih => intro a; simp [insOps, List.countP_cons, isInsertOp, ih (a + 1)]

theorem insOps_countP_lookup (p : Params) :
    ∀ (k a : Nat), (insOps p a k).countP isLongLookupOp = 0 := by
  intro k
  induction k with
  | zero => intro a; simp [insOps]
  | succ k ih => intro a; simp [insOps, List.countP_cons, isLongLookupOp, ih (a + 1)]

/-! ## Claim theorems for the insert loop under adversarial storage -/

/-- Claim C2: if the fast-path lookups miss and every insert attempt fails
with a signal the service classifies as a code-uniqueness violation,
`Shorten` performs exactly 5 insert attempts — the `a`-th using the code of
the `a`-th `GenerateCode` call, never the code that just collided — and then
fails with the `Could not allocate unique code` outcome, performing no other
storage operation (the trace holds exactly the 2 fast-path lookups and the
5 inserts). -/
theorem claim_C2 :
    ∀ (L I C : Nat → Except GoError URLRecord) (p : Params),
      respOk (L 0) = false → respOk (L 1) = false →
      (∀ j, j < 5 → respCodeColl (I j) = true) →
      shortenRun envRepo (mkEnv L I C) p =
        (⟨L, I, C, 2, 5, 0⟩,
          .done (.error (.other "Could not allocate unique code")),
          Op.getByLong p.long :: Op.getByLong p.long :: insOps p 0 5) ∧
        (Op.getByLong p.long :: Op.getByLong p.long :: insOps p 0 5).countP isInsertOp = 5 ∧
        (Op.getByLong p.long :: Op.getByLong p.long :: insOps p 0 5).countP isLongLookupOp = 2 := by
  intro L I C p h0 h1 hcoll
  refine ⟨?_, ?_, ?_⟩
  · have hend : runSteps envRepo p 2 (⟨L, I, C, 2, 5, 0⟩ : EnvSt) (.tryInsert 5) =
        ((⟨L, I, C, 2, 5, 0⟩ : EnvSt),
          .done (.error (.other "Could not allocate unique code")), []) := by
      simp [runSteps, step]
    have hskip := runSteps_env_skip p 5 (⟨L, I, C, 2, 0, 0⟩ : EnvSt) 7 0 rfl
      (by omega) (by omega) (fun j hj => by simpa using hcoll j hj)
      ⟨L, I, C, 2, 5, 0⟩ (.done (.error (.other "Could not allocate unique code"))) []
      (by rw [Nat.zero_add]; exact hend)
    have hfast := runSteps_env_fastmiss p (mkEnv L I C) 7 h0 h1
      ⟨L, I, C, 2, 5, 0⟩ (.done (.error (.other "Could not allocate unique code")))
      (insOps p 0 5 ++ []) hskip
    have : shortenRun envRepo (mkEnv L I C) p =
        (⟨L, I, C, 2, 5, 0⟩,
          .done (.error (.other "Could not allocate unique code")),
          Op.getByLong p.long :: Op.getByLong p.long :: (insOps p 0 5 ++ [])) := hfast
    simpa using this
  · simp [List.countP_cons, isInsertOp, insOps_countP_insert p 5 0]
  · simp [List.countP_cons, isLongLookupOp, insOps_countP_lookup p 5 0]

/-- Witness for C2: a store whose inserts always fail with the canonical
code-constraint violation drives the loop through all five attempts. -/
theorem claim_C2_witness :
    (shortenRun envRepo
        (mkEnv (fun _ => .error .noRows)
          (fun _ => .error (codeViolation "ABC123")) (fun _ => .error .noRows))
        ⟨"https://s/", "https://example.com/t", fun _ => "cX", fun _ => "iX"⟩).2.1 =
      .done (.error (.other "Could not allocate unique code")) ∧
      (shortenRun envRepo
        (mkEnv (fun _ => .error .noRows)
          (fun _ => .error (codeViolation "ABC123")) (fun _ => .error .noRows))
        ⟨"https://s/", "https://example.com/t", fun _ => "cX", fun _ => "iX"⟩).2.2.countP
        isInsertOp = 5 := by
  have h := claim_C2 (fun _ => .error .noRows)
    (fun _ => .error (codeViolation "ABC123")) (fun _ => .error .noRows)
    ⟨"https://s/", "https://example.com/t", fun _ => "cX", fun _ => "iX"⟩
    rfl rfl (fun j hj =>
      (by decide : respCodeColl (Except.error (codeViolation "ABC123")) = true))
  rw [h.1]
  exact ⟨rfl, h.2.1⟩

/-- Counterexample to claim C1 as stated: with the long URL
`https://example.com/code`, an insert attempt that fails due to the
long-URL uniqueness constraint (the canonical Postgres signal
`Key (long_url)=(https://example.com/code) already exists.`) is NOT followed
by a re-read: the substring classifier of shortener.go line 50 sees `code`
inside the detail and treats the failure as a code collision, so the run
performs the 2 fast-path lookups and 5 insert attempts (no third
`GetByLong`), and returns the allocation failure instead of the re-read
mapping or the original insert error. -/
theorem claim_C1_cex :
    (shortenRun envRepo
        (mkEnv (fun _ => .error .noRows)
          (fun _ => .error (longUrlViolation "https://example.com/code"))
          (fun _ => .error .noRows))
        ⟨"https://s/", "https://example.com/code", fun _ => "AAAAAA", fun _ => "uid"⟩).2.1 =
      .done (.error (.other "Could not allocate unique code")) ∧
      (shortenRun envRepo
        (mkEnv (fun _ => .error .noRows)
          (fun _ => .error (longUrlViolation "https://example.com/code"))
          (fun _ => .error .noRows))
        ⟨"https://s/", "https://example.com/code", fun _ => "AAAAAA", fun _ => "uid"⟩).2.2.countP
        isLongLookupOp = 2 ∧
      (shortenRun envRepo
        (mkEnv (fun _ => .error .noRows)
          (fun _ => .error (longUrlViolation "https://example.com/code"))
          (fun _ => .error .noRows))
        ⟨"https://s/", "https://example.com/code", fun _ => "AAAAAA", fun _ => "uid"⟩).2.2.countP
        isInsertOp = 5 := by
  decide

/-- Claim C1 (amended): when an insert attempt fails with a long-URL
uniqueness violation whose signal the service actually classifies as such —
`isCodeColl` false and `isLongColl` true, which for the canonical Postgres
signal holds exactly when the long URL does not contain the substring
`code` — `Shorten` performs exactly one re-read by long URL: if the re-read
finds the mapping it is returned with `wasCreated = false`; if the re-read
fails, the original insert error is returned; in both cases the trace shows
exactly one lookup after the insert attempts (3 long-URL lookups in total,
2 of them the fast path) and no further insert. -/
theorem claim_C1_amended :
    ∀ (L I C : Nat → Except GoError URLRecord) (p : Params) (k : Nat) (e : GoError),
      respOk (L 0) = false → respOk (L 1) = false →
      (∀ j, j < k → respCodeColl (I j) = true) →
      k < 5 → I k = .error e →
      isCodeColl e = false → isLongColl e = true →
      (∀ r, L 2 = .ok r →
        shortenRun envRepo (mkEnv L I C) p =
          (⟨L, I, C, 3, k + 1, 0⟩, .done (.ok (r, false)),
            Op.getByLong p.long :: Op.getByLong p.long ::
              (insOps p 0 k ++
                [Op.insert (p.ids k) (p.codes k) p.long (p.base ++ p.codes k),
                  Op.getByLong p.long]))) ∧
      (∀ e2, L 2 = .error e2 →
        shortenRun envRepo (mkEnv L I C) p =
          (⟨L, I, C, 3, k + 1, 0⟩, .done (.error e),
            Op.getByLong p.long :: Op.getByLong p.long ::
              (insOps p 0 k ++
                [Op.insert (p.ids k) (p.codes k) p.long (p.base ++ p.codes k),
                  Op.getByLong p.long]))) ∧
      (Op.getByLong p.long :: Op.getByLong p.long ::
        (insOps p 0 k ++
          [Op.insert (p.ids k) (p.codes k) p.long (p.base ++ p.codes k),
            Op.getByLong p.long])).countP isLongLookupOp = 3 ∧
      (Op.getByLong p.long :: Op.getByLong p.long ::
        (insOps p 0 k ++
          [Op.insert (p.ids k) (p.codes k) p.long (p.base ++ p.codes k),
            Op.getByLong p.long])).countP isInsertOp = k + 1 := by
  intro L I C p k e h0 h1 hcoll hk hIk hcf hlt
  have hpq : isPqUnique e = true := by
    simp only [isLongColl, Bool.and_eq_true] at hlt
    exact hlt.1
  have hlu : (goContains e.detail "long_url" || goContains e.message "long_url") = true := by
    simp only [isLongColl, Bool.and_eq_true] at hlt
    exact hlt.2
  have hnc : (goContains e.detail "code" || goContains e.message "code") = false := by
    simp only [isCodeColl, hpq, Bool.true_and] at hcf
    exact hcf
  have h7 : 7 - k = (5 - k) + 2 := by omega
  refine ⟨?_, ?_, ?_, ?_⟩
  · intro r hL2
    have htail : runSteps envRepo p ((5 - k) + 2) (⟨L, I, C, 2, k, 0⟩ : EnvSt)
        (.tryInsert k) =
        (⟨L, I, C, 3, k + 1, 0⟩, .done (.ok (r, false)),
          [Op.insert (p.ids k) (p.codes k) p.long (p.base ++ p.codes k),
            Op.getByLong p.long]) := by
      simp only [runSteps, step, env_insert, env_getByLong, hIk, hpq, hnc, hlu,
        hk, hL2, Bool.not_true, Bool.false_eq_true, if_false, if_true, if_pos,
        runSteps_done]
      rfl
    have hskip := runSteps_env_skip p k (⟨L, I, C, 2, 0, 0⟩ : EnvSt) 7 0 rfl
      (by omega) (by omega) (fun j hj => by simpa using hcoll j hj)
      ⟨L, I, C, 3, k + 1, 0⟩ (.done (.ok (r, false)))
      [Op.insert (p.ids k) (p.codes k) p.long (p.base ++ p.codes k),
        Op.getByLong p.long]
      (by rw [Nat.zero_add, h7]; exact htail)
    exact runSteps_env_fastmiss p (mkEnv L I C) 7 h0 h1 _ _ _ hskip
  · intro e2 hL2
    have htail : runSteps envRepo p ((5 - k) + 2) (⟨L, I, C, 2, k, 0⟩ : EnvSt)
        (.tryInsert k) =
        (⟨L, I, C, 3, k + 1, 0⟩, .done (.error e),
          [Op.insert (p.ids k) (p.codes k) p.long (p.base ++ p.codes k),
            Op.getByLong p.long]) := by
      simp only [runSteps, step, env_insert, env_getByLong, hIk, hpq, hnc, hlu,
        hk, hL2, Bool.not_true, Bool.false_eq_true, if_false, if_true, if_pos,
        runSteps_done]
      rfl
    have hskip := runSteps_env_skip p k (⟨L, I, C, 2, 0, 0⟩ : EnvSt) 7 0 rfl
      (by omega) (by omega) (fun j hj => by simpa using hcoll j hj)
      ⟨L, I, C, 3, k + 1, 0⟩ (.done (.error e))
      [Op.insert (p.ids k) (p.codes k) p.long (p.base ++ p.codes k),
        Op.getByLong p.long]
      (by rw [Nat.zero_add, h7]; exact htail)
    exact runSteps_env_fastmiss p (mkEnv L I C) 7 h0 h1 _ _ _ hskip
  · simp [List.countP_cons, List.countP_append, isLongLookupOp,
      insOps_countP_lookup p k 0]
  · simp [List.countP_cons, List.countP_append, isInsertOp,
      insOps_countP_insert p k 0]

/-- Witness for the amended C1: an insert failing with the canonical
long-URL violation for a URL that does not contain `code` is resolved by a
single re-read returning the winner's record with `wasCreated = false`. -/
theorem claim_C1_amended_witness :
    shortenRun envRepo
        (mkEnv
          (fun n => if n < 2 then .error .noRows
            else .ok ⟨"wid", "RACE01", "https://example.com/a", "https://s/RACE01", 0⟩)
          (fun _ => .error (longUrlViolation "https://example.com/a"))
          (fun _ => .error .noRows))
        ⟨"https://s/", "https://example.com/a", fun _ => "cW", fun _ => "iW"⟩ =
      (⟨(fun n => if n < 2 then .error .noRows
            else .ok ⟨"wid", "RACE01", "https://example.com/a", "https://s/RACE01", 0⟩),
          (fun _ => .error (longUrlViolation "https://example.com/a")),
          (fun _ => .error .noRows), 3, 1, 0⟩,
        .done (.ok (⟨"wid", "RACE01", "https://example.com/a", "https://s/RACE01", 0⟩, false)),
        [Op.getByLong "https://example.com/a", Op.getByLong "https://example.com/a",
          Op.insert "iW" "cW" "https://example.com/a" "https://s/cW",
          Op.getByLong "https://example.com/a"]) := by
  have h := (claim_C1_amended
    (fun n => if n < 2 then .error .noRows
      else .ok ⟨"wid", "RACE01", "https://example.com/a", "https://s/RACE01", 0⟩)
    (fun _ => .error (longUrlViolation "https://example.com/a"))
    (fun _ => .error .noRows)
    ⟨"https://s/", "https://example.com/a", fun _ => "cW", fun _ => "iW"⟩ 0
    (longUrlViolation "https://example.com/a")
    rfl rfl (fun j hj => absurd hj (by omega)) (by omega) rfl
    (by decide) (by decide)).1
    ⟨"wid", "RACE01", "https://example.com/a", "https://s/RACE01", 0⟩ rfl
  simpa [insOps] using h

/-- Counterexample to claim C6 as stated: the initial lookup by long URL
failing with an infrastructure error (not a not-found) does NOT abort the
call — the error is never inspected (shortener.go lines 29-33), the lookup
is retried once, and an insert is then attempted and here succeeds. -/
theorem claim_C6_cex :
    (shortenRun envRepo
        (mkEnv (fun _ => .error (.other "storage unavailable"))
          (fun _ => .ok ⟨"id0", "c0", "https://example.com/a", "https://s/c0", 0⟩)
          (fun _ => .error .noRows))
        ⟨"https://s/", "https://example.com/a", fun _ => "c0", fun _ => "id0"⟩).2.1 =
      .done (.ok (⟨"id0", "c0", "https://example.com/a", "https://s/c0", 0⟩, true)) ∧
      (shortenRun envRepo
        (mkEnv (fun _ => .error (.other "storage unavailable"))
          (fun _ => .ok ⟨"id0", "c0", "https://example.com/a", "https://s/c0", 0⟩)
          (fun _ => .error .noRows))
        ⟨"https://s/", "https://example.com/a", fun _ => "c0", fun _ => "id0"⟩).2.2.countP
        isInsertOp = 1 := by
  decide

/-- Claim C6 (amended): the first insert failure that the service does not
recognize as one of the two uniqueness-violation signals (`isCodeColl` and
`isLongColl` both false — in particular any non-pq-unique infrastructure
failure) aborts `Shorten` immediately: the failure is propagated unchanged
and the trace ends at that insert (2 fast-path lookups, the `k` earlier
code-collision attempts and this insert — no retry, no re-read).  Errors of
the initial lookup by long URL are however not inspected: the lookup is
retried once and the insert path is entered regardless of the lookup
failure's kind (see the counterexample). -/
theorem claim_C6_amended :
    ∀ (L I C : Nat → Except GoError URLRecord) (p : Params) (k : Nat) (e : GoError),
      respOk (L 0) = false → respOk (L 1) = false →
      (∀ j, j < k → respCodeColl (I j) = true) →
      k < 5 → I k = .error e →
      isCodeColl e = false → isLongColl e = false →
      shortenRun envRepo (mkEnv L I C) p =
        (⟨L, I, C, 2, k + 1, 0⟩, .done (.error e),
          Op.getByLong p.long :: Op.getByLong p.long ::
            (insOps p 0 k ++
              [Op.insert (p.ids k) (p.codes k) p.long (p.base ++ p.codes k)])) ∧
        (Op.getByLong p.long :: Op.getByLong p.long ::
          (insOps p 0 k ++
            [Op.insert (p.ids k) (p.codes k) p.long (p.base ++ p.codes k)])).countP
          isInsertOp = k + 1 ∧
        (Op.getByLong p.long :: Op.getByLong p.long ::
          (insOps p 0 k ++
            [Op.insert (p.ids k) (p.codes k) p.long (p.base ++ p.codes k)])).countP
          isLongLookupOp = 2 := by
  intro L I C p k e h0 h1 hcoll hk hIk hcf hlf
  have h7 : 7 - k = (5 - k) + 2 := by omega
  refine ⟨?_, ?_, ?_⟩
  · have htail : runSteps envRepo p ((5 - k) + 2) (⟨L, I, C, 2, k, 0⟩ : EnvSt)
        (.tryInsert k) =
        (⟨L, I, C, 2, k + 1, 0⟩, .done (.error e),
          [Op.insert (p.ids k) (p.codes k) p.long (p.base ++ p.codes k)]) := by
      cases hpq : isPqUnique e with
      | false =>
        simp only [runSteps, step, env_insert, hIk, hpq, hk, Bool.not_false,
          if_true, if_pos, runSteps_done]
        rfl
      | true =>
        have hnc : (goContains e.detail "code" || goContains e.message "code") = false := by
          simp only [isCodeColl, hpq, Bool.true_and] at hcf
          exact hcf
        have hnl : (goContains e.detail "long_url" || goContains e.message "long_url") = false := by
          simp only [isLongColl, hpq, Bool.true_and] at hlf
          exact hlf
        simp only [runSteps, step, env_insert, hIk, hpq, hnc, hnl, hk,
          Bool.not_true, Bool.false_eq_true, if_false, if_pos, runSteps_done]
        rfl
    have hskip := runSteps_env_skip p k (⟨L, I, C, 2, 0, 0⟩ : EnvSt) 7 0 rfl
      (by omega) (by omega) (fun j hj => by simpa using hcoll j hj)
      ⟨L, I, C, 2, k + 1, 0⟩ (.done (.error e))
      [Op.insert (p.ids k) (p.codes k) p.long (p.base ++ p.codes k)]
      (by rw [Nat.zero_add, h7]; exact htail)
    exact runSteps_env_fastmiss p (mkEnv L I C) 7 h0 h1 _ _ _ hskip
  · simp [List.countP_cons, List.countP_append, isInsertOp,
      insOps_countP_insert p k 0]
  · simp [List.countP_cons, List.countP_append, isLongLookupOp,
      insOps_countP_lookup p k 0]

/-- Witness for the amended C6: an infrastructure failure of the very first
insert is propagated unchanged with no retry. -/
theorem claim_C6_amended_witness :
    shortenRun envRepo
        (mkEnv (fun _ => .error .noRows)
          (fun _ => .error (.other "storage unavailable"))
          (fun _ => .error .noRows))
        ⟨"https://s/", "https://example.com/a", fun _ => "cV", fun _ => "iV"⟩ =
      (⟨(fun _ => .error .noRows), (fun _ => .error (.other "storage unavailable")),
          (fun _ => .error .noRows), 2, 1, 0⟩,
        .done (.error (.other "storage unavailable")),
        [Op.getByLong "https://example.com/a", Op.getByLong "https://example.com/a",
          Op.insert "iV" "cV" "https://example.com/a" "https://s/cV"]) := by
  have h := (claim_C6_amended (fun _ => .error .noRows)
    (fun _ => .error (.other "storage unavailable")) (fun _ => .error .noRows)
    ⟨"https://s/", "https://example.com/a", fun _ => "cV", fun _ => "iV"⟩ 0
    (.other "storage unavailable")
    rfl rfl (fun j hj => absurd hj (by omega)) (by omega) rfl
    (by decide) (by decide)).1
  simpa [insOps] using h

/-! ## Store-backed run lemmas -/

theorem store_getByLong (now : Nat) (st : Store) (l : String) :
    (storeRepo now).getByLong st l = (storeGetByLong st l, st) := rfl

theorem store_getByCode (now : Nat) (st : Store) (c : String) :
    (storeRepo now).getByCode st c = (storeGetByCode st c, st) := rfl

theorem store_insert (now : Nat) (st : Store) (i c l s : String) :
    (storeRepo now).insert st i c l s = storeInsert now st i c l s := rfl

theorem storeGetByLong_ok (st : Store) (l : String) (r : URLRecord)
    (h : storeGetByLong st l = .ok r) : r ∈ st.recs ∧ r.longUrl = l := by
  unfold storeGetByLong at h
  cases hf : st.recs.find? (fun x => x.longUrl == l) with
  | none => rw [hf] at h; cases h
  | some x =>
    rw [hf] at h
    cases h
    have h1 := List.mem_of_find?_eq_some hf
    have h2 := List.find?_some hf
    simp only [beq_iff_eq] at h2
    exact ⟨h1, h2⟩

theorem storeInsert_ok (now : Nat) (st : Store) (i c l s : String)
    (r : URLRecord) (st' : Store)
    (h : storeInsert now st i c l s = (.ok r, st')) :
    r = ⟨i, c, l, s, now⟩ ∧ st'.recs = st.recs ++ [r] ∧ freshFor st r := by
  unfold storeInsert at h
  by_cases h1 : st.recs.any (fun x => x.code == c) = true
  · rw [if_pos h1] at h; cases h
  · rw [if_neg h1] at h
    by_cases h2 : st.recs.any (fun x => x.longUrl == l) = true
    · rw [if_pos h2] at h; cases h
    · rw [if_neg h2] at h
      cases h
      rw [Bool.not_eq_true, List.any_eq_false] at h1 h2
      refine ⟨rfl, rfl, fun x hx => ?_, fun x hx => ?_⟩
      · have := h1 x hx
        simpa using this
      · have := h2 x hx
        simpa using this

theorem storeInsert_error (now : Nat) (st : Store) (i c l s : String)
    (e : GoError) (st' : Store)
    (h : storeInsert now st i c l s = (.error e, st')) : st' = st := by
  unfold storeInsert at h
  by_cases h1 : st.recs.any (fun x => x.code == c) = true
  · rw [if_pos h1] at h; cases h; rfl
  · rw [if_neg h1] at h
    by_cases h2 : st.recs.any (fun x => x.longUrl == l) = true
    · rw [if_pos h2] at h; cases h; rfl
    · rw [if_neg h2] at h; cases h

theorem wf_append (st : Store) (r : URLRecord) (hwf : st.wf)
    (hfresh : freshFor st r) : (Store.mk (st.recs ++ [r])).wf := by
  constructor
  · rw [List.map_append, List.nodup_append]
    refine ⟨hwf.1, List.nodup_singleton _, fun b hb => ?_⟩
    simp only [List.mem_map] at hb
    obtain ⟨x, hx, hbx⟩ := hb
    simp only [List.map_singleton, List.mem_singleton]
    intro hbr
    exact hfresh.1 x hx (hbx.trans hbr)
  · rw [List.map_append, List.nodup_append]
    refine ⟨hwf.2, List.nodup_singleton _, fun b hb => ?_⟩
    simp only [List.mem_map] at hb
    obtain ⟨x, hx, hbx⟩ := hb
    simp only [List.map_singleton, List.mem_singleton]
    intro hbr
    exact hfresh.2 x hx (hbx.trans hbr)

theorem step_store_char (now : Nat) (p : Params) (st : Store) (t : TState) :
    ∀ st' t' ops, step (storeRepo now) p st t = (st', t', ops) →
      StoreRunChar p st t st' t' := by
  intro st' t' ops h
  unfold StoreRunChar
  cases t with
  | start =>
    rw [step, store_getByLong] at h
    cases hg : storeGetByLong st p.long with
    | ok r0 =>
      rw [hg] at h
      cases h
      refine ⟨Or.inl rfl, fun r w heq => ?_⟩
      cases heq
      exact Or.inr (Or.inl ⟨rfl, (storeGetByLong_ok st p.long r0 hg).1,
        (storeGetByLong_ok st p.long r0 hg).2⟩)
    | error e0 =>
      rw [hg] at h
      cases h
      exact ⟨Or.inl rfl, fun r w heq => by cases heq⟩
  | fast2 =>
    rw [step, store_getByLong] at h
    cases hg : storeGetByLong st p.long with
    | ok r0 =>
      rw [hg] at h
      cases h
      refine ⟨Or.inl rfl, fun r w heq => ?_⟩
      cases heq
      exact Or.inr (Or.inl ⟨rfl, (storeGetByLong_ok st p.long r0 hg).1,
        (storeGetByLong_ok st p.long r0 hg).2⟩)
    | error e0 =>
      rw [hg] at h
      cases h
      exact ⟨Or.inl rfl, fun r w heq => by cases heq⟩
  | reread e =>
    rw [step, store_getByLong] at h
    cases hg : storeGetByLong st p.long with
    | ok r0 =>
      rw [hg] at h
      cases h
      refine ⟨Or.inl rfl, fun r w heq => ?_⟩
      cases heq
      exact Or.inr (Or.inl ⟨rfl, (storeGetByLong_ok st p.long r0 hg).1,
        (storeGetByLong_ok st p.long r0 hg).2⟩)
    | error e0 =>
      rw [hg] at h
      cases h
      exact ⟨Or.inl rfl, fun r w heq => by cases heq⟩
  | done res =>
    rw [step] at h
    cases h
    exact ⟨Or.inl rfl, fun r w heq => Or.inl heq⟩
  | tryInsert a =>
    by_cases ha : a < 5
    · rcases hi : storeInsert now st (p.ids a) (p.codes a) p.long (p.base ++ p.codes a)
        with ⟨res, st1⟩
      cases res with
      | ok r0 =>
        have hstep : step (storeRepo now) p st (.tryInsert a) =
            (st1, .done (.ok (r0, true)),
              [.insert (p.ids a) (p.codes a) p.long (p.base ++ p.codes a)]) := by
          rw [step, if_pos ha, store_insert, hi]
        rw [hstep] at h
        cases h
        obtain ⟨hr0, hrecs, hfresh⟩ :=
          storeInsert_ok now st (p.ids a) (p.codes a) p.long (p.base ++ p.codes a) r0 st' hi
        have hlong : r0.longUrl = p.long := by rw [hr0]
        refine ⟨Or.inr ⟨r0, hrecs, rfl, hlong, hfresh⟩, fun r w heq => ?_⟩
        cases heq
        exact Or.inr (Or.inr ⟨rfl, hrecs, hlong, hfresh⟩)
      | error e0 =>
        have hst1 : st1 = st :=
          storeInsert_error now st (p.ids a) (p.codes a) p.long (p.base ++ p.codes a) e0 st1 hi
        rw [hst1] at hi
        by_cases hb1 : (!isPqUnique e0) = true
        · have hstep : step (storeRepo now) p st (.tryInsert a) =
              (st, .done (.error e0),
                [.insert (p.ids a) (p.codes a) p.long (p.base ++ p.codes a)]) := by
            rw [step, if_pos ha, store_insert, hi]
            simp only [hb1, if_true]
          rw [hstep] at h
          cases h
          exact ⟨Or.inl rfl, fun r w heq => by cases heq⟩
        · by_cases hb2 : (goContains e0.detail "code" || goContains e0.message "code") = true
          · have hstep : step (storeRepo now) p st (.tryInsert a) =
                (st, .tryInsert (a + 1),
                  [.insert (p.ids a) (p.codes a) p.long (p.base ++ p.codes a)]) := by
              rw [step, if_pos ha, store_insert, hi]
              simp only [hb1, hb2, if_true, if_false, Bool.not_eq_true] at *
              simp [hb1, hb2]
            rw [hstep] at h
            cases h
            exact ⟨Or.inl rfl, fun r w heq => by cases heq⟩
          · by_cases hb3 : (goContains e0.detail "long_url" || goContains e0.message "long_url") = true
            · have hstep : step (storeRepo now) p st (.tryInsert a) =
                  (st, .reread e0,
                    [.insert (p.ids a) (p.codes a) p.long (p.base ++ p.codes a)]) := by
                rw [step, if_pos ha, store_insert, hi]
                simp [hb1, hb2, hb3]
              rw [hstep] at h
              cases h
              exact ⟨Or.inl rfl, fun r w heq => by cases heq⟩
            · have hstep : step (storeRepo now) p st (.tryInsert a) =
                  (st, .done (.error e0),
                    [.insert (p.ids a) (p.codes a) p.long (p.base ++ p.codes a)]) := by
                rw [step, if_pos ha, store_insert, hi]
                simp [hb1, hb2, hb3]
              rw [hstep] at h
              cases h
              exact ⟨Or.inl rfl, fun r w heq => by cases heq⟩
    · have hstep : step (storeRepo now) p st (.tryInsert a) =
          (st, .done (.error (.other "Could not allocate unique code")), []) := by
        rw [step, if_neg ha]
      rw [hstep] at h
      cases h
      exact ⟨Or.inl rfl, fun r w heq => by cases heq⟩

theorem runSteps_succ_nondone {σ : Type} (R : RepoOps σ) (p : Params) (fuel : Nat)
    (s : σ) (t : TState) (hnd : ∀ res, t ≠ .done res) :
    runSteps R p (fuel + 1) s t =
      ((runSteps R p fuel (step R p s t).1 (step R p s t).2.1).1,
        (runSteps R p fuel (step R p s t).1 (step R p s t).2.1).2.1,
        (step R p s t).2.2 ++ (runSteps R p fuel (step R p s t).1 (step R p s t).2.1).2.2) := by
  cases t with
  | done res => exact absurd rfl (hnd res)
  | start => rfl
  | fast2 => rfl
  | tryInsert a => rfl
  | reread e => rfl

theorem storeRunChar_compose (p : Params) (st : Store) (t : TState)
    (st1 : Store) (t1 : TState) (st2 : Store) (t2 : TState)
    (h1 : StoreRunChar p st t st1 t1) (h2 : StoreRunChar p st1 t1 st2 t2)
    (hfreeze : ∀ res, t1 = .done res → st2 = st1 ∧ t2 = t1) :
    StoreRunChar p st t st2 t2 := by
  by_cases hd : ∃ res, t1 = TState.done res
  · obtain ⟨res, hres⟩ := hd
    obtain ⟨hst, htt⟩ := hfreeze res hres
    rw [hst, htt]
    exact h1
  · have hnd : ∀ res, t1 ≠ TState.done res := by
      intro res hres
      exact hd ⟨res, hres⟩
    have hst1 : st1 = st := by
      rcases h1.1 with h | ⟨r, _, hdone, _⟩
      · exact h
      · exact absurd hdone (hnd _)
    subst hst1
    constructor
    · rcases h2.1 with h | ⟨r, hrecs, hdone, hlong, hfresh⟩
      · exact Or.inl h
      · exact Or.inr ⟨r, hrecs, hdone, hlong, hfresh⟩
    · intro r w heq
      rcases h2.2 r w heq with h | h | h
      · exact absurd h (hnd _)
      · exact Or.inr (Or.inl h)
      · exact Or.inr (Or.inr h)

theorem runSteps_store_char (now : Nat) (p : Params) :
    ∀ (fuel : Nat) (st : Store) (t : TState) (st' : Store) (t' : TState) (tr : List Op),
      runSteps (storeRepo now) p fuel st t = (st', t', tr) →
      StoreRunChar p st t st' t' := by
  intro fuel
  induction fuel with
  | zero =>
    intro st t st' t' tr h
    rw [runSteps] at h
    cases h
    exact ⟨Or.inl rfl, fun r w heq => Or.inl heq⟩
  | succ fuel ih =>
    intro st t st' t' tr h
    by_cases hd : ∃ res, t = TState.done res
    · obtain ⟨res, rfl⟩ := hd
      rw [runSteps_done] at h
      cases h
      exact ⟨Or.inl rfl, fun r w heq => Or.inl heq⟩
    · have hnd : ∀ res, t ≠ TState.done res := by
        intro res hres
        exact hd ⟨res, hres⟩
      rw [runSteps_succ_nondone (storeRepo now) p fuel st t hnd] at h
      rcases hstep : step (storeRepo now) p st t with ⟨st1, t1, ops1⟩
      rw [hstep] at h
      rcases hrun : runSteps (storeRepo now) p fuel st1 t1 with ⟨st2, t2, tr2⟩
      rw [hrun] at h
      have hcomp : st2 = st' ∧ t2 = t' := by
        have h1 := congrArg Prod.fst h
        have h2 := congrArg (fun x => x.2.1) h
        exact ⟨h1, h2⟩
      obtain ⟨rfl, rfl⟩ := hcomp
      exact storeRunChar_compose p st t st1 t1 st2 t2
        (step_store_char now p st t st1 t1 ops1 hstep)
        (ih st1 t1 st2 t2 tr2 hrun)
        (fun res hres => by
          rw [hres, runSteps_done] at hrun
          obtain ⟨ha, hb, _⟩ : st1 = st2 ∧ TState.done res = t2 ∧ ([] : List Op) = tr2 := by
            simpa [Prod.ext_iff] using hrun
          exact ⟨ha.symm, by rw [← hb, hres]⟩)

theorem runSteps_store_fastmiss (now : Nat) (p : Params) (st : Store) (fuel : Nat)
    (e : GoError) (hg : storeGetByLong st p.long = .error e) :
    ∀ st' t' tr, runSteps (storeRepo now) p fuel st (.tryInsert 0) = (st', t', tr) →
      runSteps (storeRepo now) p (fuel + 2) st .start =
        (st', t', Op.getByLong p.long :: Op.getByLong p.long :: tr) := by
  intro st' t' tr h
  show (runSteps (storeRepo now) p (fuel + 1 + 1) st .start) = _
  simp only [runSteps, step, store_getByLong, hg, h]
  rfl

theorem runSteps_store_reread_done (now : Nat) (p : Params) :
    ∀ (f : Nat) (st : Store) (e : GoError), 1 ≤ f →
      ∃ res, (runSteps (storeRepo now) p f st (.reread e)).2.1 = .done res := by
  intro f st e hf
  match f, hf with
  | f + 1, _ =>
    cases hg : storeGetByLong st p.long with
    | ok r =>
      exact ⟨.ok (r, false), by simp [runSteps, step, store_getByLong, hg, runSteps_done]⟩
    | error e0 =>
      exact ⟨.error e, by simp [runSteps, step, store_getByLong, hg, runSteps_done]⟩

theorem runSteps_store_ins_done (now : Nat) (p : Params) :
    ∀ (f a : Nat) (st : Store), 5 - a < f →
      ∃ res, (runSteps (storeRepo now) p f st (.tryInsert a)).2.1 = .done res := by
  intro f
  induction f with
  | zero => intro a st h; omega
  | succ f ih =>
    intro a st hlt
    by_cases ha : a < 5
    · rcases hi : storeInsert now st (p.ids a) (p.codes a) p.long (p.base ++ p.codes a)
        with ⟨res0, st1⟩
      cases res0 with
      | ok r0 =>
        refine ⟨.ok (r0, true), ?_⟩
        simp [runSteps, step, store_insert, hi, ha, runSteps_done]
      | error e0 =>
        by_cases hb1 : (!isPqUnique e0) = true
        · refine ⟨.error e0, ?_⟩
          simp [runSteps, step, store_insert, hi, ha, hb1, runSteps_done]
        · by_cases hb2 : (goContains e0.detail "code" || goContains e0.message "code") = true
          · have hst1 : st1 = st :=
              storeInsert_error now st (p.ids a) (p.codes a) p.long (p.base ++ p.codes a)
                e0 st1 hi
            rw [hst1] at hi
            obtain ⟨res, hres⟩ := ih (a + 1) st (by omega)
            refine ⟨res, ?_⟩
            simp only [runSteps, step, store_insert, hi, ha, hb1, hb2, if_pos, if_true,
              Bool.false_eq_true, if_false]
            simpa using hres
          · by_cases hb3 : (goContains e0.detail "long_url" || goContains e0.message "long_url") = true
            · have hst1 : st1 = st :=
                storeInsert_error now st (p.ids a) (p.codes a) p.long (p.base ++ p.codes a)
                  e0 st1 hi
              rw [hst1] at hi
              obtain ⟨res, hres⟩ := runSteps_store_reread_done now p f st e0 (by omega)
              refine ⟨res, ?_⟩
              simp only [runSteps, step, store_insert, hi, ha, hb1, hb2, hb3, if_pos,
                if_true, Bool.false_eq_true, if_false]
              simpa using hres
            · refine ⟨.error e0, ?_⟩
              simp [runSteps, step, store_insert, hi, ha, hb1, hb2, hb3, runSteps_done]
    · refine ⟨.error (.other "Could not allocate unique code"), ?_⟩
      simp [runSteps, step, ha, runSteps_done]

theorem shortenRun_store_done (now : Nat) (st : Store) (p : Params) :
    ∃ res, (shortenRun (storeRepo now) st p).2.1 = .done res := by
  cases hg : storeGetByLong st p.long with
  | ok r =>
    refine ⟨.ok (r, false), ?_⟩
    show (runSteps (storeRepo now) p 9 st .start).2.1 = _
    simp [runSteps, step, store_getByLong, hg, runSteps_done]
  | error e =>
    rcases hrun : runSteps (storeRepo now) p 7 st (.tryInsert 0) with ⟨st2, t2, tr2⟩
    obtain ⟨res, hres⟩ := runSteps_store_ins_done now p 7 0 st (by omega)
    rw [hrun] at hres
    refine ⟨res, ?_⟩
    show (runSteps (storeRepo now) p 9 st .start).2.1 = _
    rw [runSteps_store_fastmiss now p st 7 e hg st2 t2 tr2 hrun]
    simpa using hres

/-! ## Claim theorems against the Postgres-backed store -/

/-- Claim C3: on a storage state that already contains a mapping for the
long URL, `Shorten` returns that mapping with `wasCreated = false`, leaves
the store untouched, and its trace is the single fast-path lookup — no
insert attempt is performed. -/
theorem claim_C3 :
    ∀ (now : Nat) (st : Store) (p : Params),
      (∃ x ∈ st.recs, x.longUrl = p.long) →
      ∃ r, r ∈ st.recs ∧ r.longUrl = p.long ∧
        shortenRun (storeRepo now) st p =
          (st, .done (.ok (r, false)), [Op.getByLong p.long]) := by
  intro now st p hex
  have hsome : (st.recs.find? (fun x => x.longUrl == p.long)).isSome := by
    rw [List.find?_isSome]
    obtain ⟨x, hx, hlx⟩ := hex
    exact ⟨x, hx, by simp [hlx]⟩
  obtain ⟨r, hr⟩ := Option.isSome_iff_exists.mp hsome
  have hok : storeGetByLong st p.long = .ok r := by
    unfold storeGetByLong
    rw [hr]
  refine ⟨r, List.mem_of_find?_eq_some hr, by simpa using List.find?_some hr, ?_⟩
  show runSteps (storeRepo now) p 9 st .start = _
  simp [runSteps, step, store_getByLong, hok, runSteps_done]

/-- Witness for C3: a one-record store returns its record unchanged. -/
theorem claim_C3_witness :
    ∃ r, r ∈ (Store.mk
        [⟨"tid", "TEST01", "https://example.com/test", "https://s/TEST01", 7⟩]).recs ∧
      r.longUrl = "https://example.com/test" ∧
      shortenRun (storeRepo 3)
          ⟨[⟨"tid", "TEST01", "https://example.com/test", "https://s/TEST01", 7⟩]⟩
          ⟨"https://s/", "https://example.com/test", fun _ => "cZ", fun _ => "iZ"⟩ =
        (⟨[⟨"tid", "TEST01", "https://example.com/test", "https://s/TEST01", 7⟩]⟩,
          .done (.ok (r, false)),
          [Op.getByLong "https://example.com/test"]) := by
  exact claim_C3 3 ⟨[⟨"tid", "TEST01", "https://example.com/test", "https://s/TEST01", 7⟩]⟩
    ⟨"https://s/", "https://example.com/test", fun _ => "cZ", fun _ => "iZ"⟩
    (by decide)

/-- Claim C10: every `Shorten` run against the store terminates, and the
store after the call equals the store before it whenever the call returns
`wasCreated = false` or an error; the only runs that change storage return
`wasCreated = true` and append exactly one new record (never updating or
deleting an existing one). -/
theorem claim_C10 :
    ∀ (now : Nat) (st : Store) (p : Params) (st' : Store) (t' : TState) (tr : List Op),
      shortenRun (storeRepo now) st p = (st', t', tr) →
      (∃ res, t' = .done res) ∧
        (∀ r, t' = .done (.ok (r, false)) → st' = st) ∧
        (∀ e, t' = .done (.error e) → st' = st) ∧
        (∀ r, t' = .done (.ok (r, true)) →
          st'.recs = st.recs ++ [r] ∧ r ∉ st.recs ∧ r.longUrl = p.long) := by
  intro now st p st' t' tr h
  obtain ⟨hpart1, hpart2⟩ := runSteps_store_char now p 9 st .start st' t' tr h
  refine ⟨?_, ?_, ?_, ?_⟩
  · obtain ⟨res, hres⟩ := shortenRun_store_done now st p
    rw [h] at hres
    exact ⟨res, by simpa using hres⟩
  · intro r heq
    rcases hpart1 with h1 | ⟨r0, _, hdone, _, _⟩
    · exact h1
    · rw [heq] at hdone
      simp at hdone
  · intro e heq
    rcases hpart1 with h1 | ⟨r0, _, hdone, _, _⟩
    · exact h1
    · rw [heq] at hdone
      simp at hdone
  · intro r heq
    rcases hpart2 r true heq with h1 | ⟨hw, _, _⟩ | ⟨_, hrecs, hlong, hfresh⟩
    · simp at h1
    · simp at hw
    · refine ⟨hrecs, ?_, hlong⟩
      intro hmem
      exact hfresh.1 r hmem rfl

/-- Witness for C10 at a created run on the empty store: exactly one record
appended. -/
theorem claim_C10_witness :
    (∃ res, TState.done
        (.ok ((⟨"i10", "cTen", "https://example.com/u10", "https://s/cTen", 0⟩ : URLRecord),
          true)) = .done res) ∧
      (∀ r, TState.done
          (.ok ((⟨"i10", "cTen", "https://example.com/u10", "https://s/cTen", 0⟩ : URLRecord),
            true)) = .done (.ok (r, false)) →
        (⟨[⟨"i10", "cTen", "https://example.com/u10", "https://s/cTen", 0⟩]⟩ : Store) = ⟨[]⟩) ∧
      (∀ e, TState.done
          (.ok ((⟨"i10", "cTen", "https://example.com/u10", "https://s/cTen", 0⟩ : URLRecord),
            true)) = .done (.error e) →
        (⟨[⟨"i10", "cTen", "https://example.com/u10", "https://s/cTen", 0⟩]⟩ : Store) = ⟨[]⟩) ∧
      (∀ r, TState.done
          (.ok ((⟨"i10", "cTen", "https://example.com/u10", "https://s/cTen", 0⟩ : URLRecord),
            true)) = .done (.ok (r, true)) →
        (⟨[⟨"i10", "cTen", "https://example.com/u10", "https://s/cTen", 0⟩]⟩ : Store).recs =
            (⟨[]⟩ : Store).recs ++ [r] ∧
          r ∉ (⟨[]⟩ : Store).recs ∧
          r.longUrl = "https://example.com/u10") :=
  claim_C10 0 ⟨[]⟩
    ⟨"https://s/", "https://example.com/u10", fun _ => "cTen", fun _ => "i10"⟩
    ⟨[⟨"i10", "cTen", "https://example.com/u10", "https://s/cTen", 0⟩]⟩
    (.done (.ok (⟨"i10", "cTen", "https://example.com/u10", "https://s/cTen", 0⟩, true)))
    [Op.getByLong "https://example.com/u10", Op.getByLong "https://example.com/u10",
      Op.insert "i10" "cTen" "https://example.com/u10" "https://s/cTen"]
    rfl

/-- Claim C5 (round-trip): on a store satisfying the two uniqueness
invariants, a successful `Shorten` leaves a state on which `Resolve` of the
returned code yields exactly the requested long URL. -/
theorem claim_C5 :
    ∀ (now : Nat) (st : Store) (p : Params) (st' : Store) (r : URLRecord) (w : Bool)
      (tr : List Op),
      st.wf →
      shortenRun (storeRepo now) st p = (st', .done (.ok (r, w)), tr) →
      resolveRun (storeRepo now) st' r.code = (.ok p.long, st', [.getByCode r.code]) := by
  intro now st p st' r w tr hwf h
  obtain ⟨hpart1, hpart2⟩ := runSteps_store_char now p 9 st .start st' _ tr h
  rcases hpart2 r w rfl with h1 | ⟨hw, hmem, hlong⟩ | ⟨hw, hrecs, hlong, hfresh⟩
  · simp at h1
  · have hst : st' = st := by
      rcases hpart1 with h1 | ⟨r0, _, hdone, _, _⟩
      · exact h1
      · subst hw
        simp at hdone
    subst hst
    have hget : storeGetByCode st' r.code = .ok r := storeGetByCode_found st' r hwf.1 hmem
    simp [resolveRun, store_getByCode, hget, hlong]
  · have hwf' : st'.wf := by
      have hap := wf_append st r hwf hfresh
      cases st' with
      | mk recs' =>
        simp only at hrecs
        rw [show (Store.mk recs').wf = (Store.mk (st.recs ++ [r])).wf by rw [hrecs]]
        exact hap
    have hmem' : r ∈ st'.recs := by
      rw [hrecs]
      simp
    have hget : storeGetByCode st' r.code = .ok r := storeGetByCode_found st' r hwf'.1 hmem'
    simp [resolveRun, store_getByCode, hget, hlong]

/-- Witness for C5: shorten-then-resolve on the empty store round-trips. -/
theorem claim_C5_witness :
    resolveRun (storeRepo 0)
        ⟨[⟨"i5", "cFive", "https://example.com/u5", "https://s/cFive", 0⟩]⟩ "cFive" =
      (.ok "https://example.com/u5",
        ⟨[⟨"i5", "cFive", "https://example.com/u5", "https://s/cFive", 0⟩]⟩,
        [.getByCode "cFive"]) :=
  claim_C5 0 ⟨[]⟩
    ⟨"https://s/", "https://example.com/u5", fun _ => "cFive", fun _ => "i5"⟩
    ⟨[⟨"i5", "cFive", "https://example.com/u5", "https://s/cFive", 0⟩]⟩
    ⟨"i5", "cFive", "https://example.com/u5", "https://s/cFive", 0⟩ true
    [Op.getByLong "https://example.com/u5", Op.getByLong "https://example.com/u5",
      Op.insert "i5" "cFive" "https://example.com/u5" "https://s/cFive"]
    (by decide) rfl

/-! ## Concurrency: the pool invariant -/

theorem poolStep_inv (st : Store) (pool : List Thread) (k : Nat)
    (hinv : PoolInv st pool) :
    ∀ st' pool', poolStep st pool k = (st', pool') → PoolInv st' pool' := by
  intro st' pool' h
  obtain ⟨hwf, hok, huniq⟩ := hinv
  unfold poolStep at h
  cases hk : pool[k]? with
  | none =>
    rw [hk] at h
    cases h
    exact ⟨hwf, hok, huniq⟩
  | some th =>
    rw [hk] at h
    rcases hstep : step (storeRepo th.now) th.p st th.ts with ⟨st', t1, ops1⟩
    simp only [hstep] at h
    cases h
    obtain ⟨hpart1, hpart2⟩ := step_store_char th.now th.p st th.ts st' t1 ops1 hstep
    have hmono : ∀ x ∈ st.recs, x ∈ st'.recs := by
      rcases hpart1 with rfl | ⟨r, hrecs, _, _, _⟩
      · intro x hx
        exact hx
      · intro x hx
        rw [hrecs]
        exact List.mem_append_left _ hx
    have hthmem : th ∈ pool := List.getElem?_mem hk
    have hklen : k < pool.length := by
      by_contra hge
      rw [List.getElem?_eq_none (by omega)] at hk
      cases hk
    refine ⟨?_, ?_, ?_⟩
    · rcases hpart1 with rfl | ⟨r, hrecs, _, _, hfresh⟩
      · exact hwf
      · cases st' with
        | mk recsA =>
          simp only at hrecs
          rw [show (Store.mk recsA).wf = (Store.mk (st.recs ++ [r])).wf by rw [hrecs]]
          exact wf_append st r hwf hfresh
    · intro th' hth' r w hts
      rcases List.mem_or_eq_of_mem_set hth' with hold | rfl
      · obtain ⟨hm, hl⟩ := hok th' hold r w hts
        exact ⟨hmono r hm, hl⟩
      · simp only at hts
        rcases hpart2 r w hts with hleft | ⟨hw, hm, hl⟩ | ⟨hw, hrecs, hl, hfresh⟩
        · obtain ⟨hm, hl⟩ := hok th hthmem r w hleft
          exact ⟨hmono r hm, hl⟩
        · exact ⟨hmono r hm, hl⟩
        · refine ⟨?_, hl⟩
          rw [hrecs]
          exact List.mem_append_right _ (List.mem_singleton.mpr rfl)
    · intro i j thi thj hi hj hci hcj hlij
      rw [List.getElem?_set] at hi hj
      rcases eq_or_ne k i with rfl | hik
      · rcases eq_or_ne k j with rfl | hjk
        · rfl
        · rw [if_pos rfl, if_pos hklen] at hi
          rw [if_neg hjk] at hj
          cases hi
          obtain ⟨ri, hri⟩ := hci
          simp only at hri
          exfalso
          rcases hpart2 ri true hri with hleft | ⟨hw, _, _⟩ | ⟨_, _, hl, hfresh⟩
          · exact hjk (huniq k j th thj hk hj ⟨ri, hleft⟩ hcj hlij)
          · cases hw
          · obtain ⟨rj, hrj⟩ := hcj
            obtain ⟨hmj, hlj⟩ := hok thj (List.getElem?_mem hj) rj true hrj
            exact hfresh.2 rj hmj (by rw [hlj, ← hlij, hl])
      · rw [if_neg hik] at hi
        rcases eq_or_ne k j with rfl | hjk
        · rw [if_pos rfl, if_pos hklen] at hj
          cases hj
          obtain ⟨rj, hrj⟩ := hcj
          simp only at hrj
          exfalso
          rcases hpart2 rj true hrj with hleft | ⟨hw, _, _⟩ | ⟨_, _, hl, hfresh⟩
          · exact hik (huniq k i th thi hk hi ⟨rj, hleft⟩ hci hlij.symm)
          · cases hw
          · obtain ⟨ri, hri⟩ := hci
            obtain ⟨hmi, hli⟩ := hok thi (List.getElem?_mem hi) ri true hri
            exact hfresh.2 ri hmi (by rw [hli, hlij, hl])
        · rw [if_neg hjk] at hj
          exact huniq i j thi thj hi hj hci hcj hlij

theorem poolRun_inv :
    ∀ (sched : List Nat) (st : Store) (pool : List Thread), PoolInv st pool →
      ∀ st' pool', poolRun st pool sched = (st', pool') → PoolInv st' pool' := by
  intro sched
  induction sched with
  | nil =>
    intro st pool hinv st' pool' h
    rw [poolRun] at h
    cases h
    exact hinv
  | cons k ks ih =>
    intro st pool hinv st' pool' h
    rcases hps : poolStep st pool k with ⟨st1, pool1⟩
    rw [poolRun] at h
    simp only [hps] at h
    exact ih st1 pool1 (poolStep_inv st pool k hinv st1 pool1 hps) st' pool' h

/-- Claim C4: under any interleaving of any number of `Shorten` calls on a
shared store satisfying the uniqueness constraints, any two calls for the
same long URL that finish successfully return the very same record
(identical identifier, code, long URL — full record equality), and at most
one of them observes `wasCreated = true` (the one whose insert committed);
every other successful call observes `wasCreated = false`. -/
theorem claim_C4 :
    ∀ (st : Store) (pool : List Thread) (sched : List Nat) (st' : Store)
      (pool' : List Thread),
      st.wf →
      (∀ th ∈ pool, th.ts = .start) →
      poolRun st pool sched = (st', pool') →
      ∀ (i j : Nat) (thi thj : Thread) (ri : URLRecord) (wi : Bool)
        (rj : URLRecord) (wj : Bool),
        pool'[i]? = some thi → pool'[j]? = some thj →
        thi.p.long = thj.p.long →
        thi.ts = .done (.ok (ri, wi)) → thj.ts = .done (.ok (rj, wj)) →
        ri = rj ∧ (wi = true → wj = true → i = j) := by
  intro st pool sched st' pool' hwf hstart hrun i j thi thj ri wi rj wj hi hj hlong hti htj
  have hinv0 : PoolInv st pool := by
    refine ⟨hwf, ?_, ?_⟩
    · intro th hth r w hts
      rw [hstart th hth] at hts
      cases hts
    · intro i0 j0 thi0 thj0 hi0 hj0 hci0 hcj0 hl0
      obtain ⟨ri0, hri0⟩ := hci0
      rw [hstart thi0 (List.getElem?_mem hi0)] at hri0
      cases hri0
  obtain ⟨hwf', hok', huniq'⟩ := poolRun_inv sched st pool hinv0 st' pool' hrun
  obtain ⟨hmi, hli⟩ := hok' thi (List.getElem?_mem hi) ri wi hti
  obtain ⟨hmj, hlj⟩ := hok' thj (List.getElem?_mem hj) rj wj htj
  constructor
  · exact List.inj_on_of_nodup_map hwf'.2 hmi hmj (by rw [hli, hlj, hlong])
  · intro hwi hwj
    exact huniq' i j thi thj hi hj ⟨ri, by rw [hti, hwi]⟩ ⟨rj, by rw [htj, hwj]⟩ hlong

/-- Witness for C4: two concurrent calls for the same long URL, the first
committing the insert, the second folding into the same record with
`wasCreated = false`. -/
theorem claim_C4_witness :
    (⟨"iA4", "cA4", "uC4", "https://s/cA4", 0⟩ : URLRecord) =
        ⟨"iA4", "cA4", "uC4", "https://s/cA4", 0⟩ ∧
      (true = true → false = true → (0 : Nat) = 1) := by
  exact claim_C4 ⟨[]⟩
    [⟨⟨"https://s/", "uC4", fun _ => "cA4", fun _ => "iA4"⟩, 0, .start⟩,
      ⟨⟨"https://s/", "uC4", fun _ => "cB4", fun _ => "iB4"⟩, 0, .start⟩]
    [0, 0, 0, 1]
    ⟨[⟨"iA4", "cA4", "uC4", "https://s/cA4", 0⟩]⟩
    [⟨⟨"https://s/", "uC4", fun _ => "cA4", fun _ => "iA4"⟩, 0,
        .done (.ok (⟨"iA4", "cA4", "uC4", "https://s/cA4", 0⟩, true))⟩,
      ⟨⟨"https://s/", "uC4", fun _ => "cB4", fun _ => "iB4"⟩, 0,
        .done (.ok (⟨"iA4", "cA4", "uC4", "https://s/cA4", 0⟩, false))⟩]
    (by decide) (by decide) rfl 0 1
    ⟨⟨"https://s/", "uC4", fun _ => "cA4", fun _ => "iA4"⟩, 0,
      .done (.ok (⟨"iA4", "cA4", "uC4", "https://s/cA4", 0⟩, true))⟩
    ⟨⟨"https://s/", "uC4", fun _ => "cB4", fun _ => "iB4"⟩, 0,
      .done (.ok (⟨"iA4", "cA4", "uC4", "https://s/cA4", 0⟩, false))⟩
    ⟨"iA4", "cA4", "uC4", "https://s/cA4", 0⟩ true
    ⟨"iA4", "cA4", "uC4", "https://s/cA4", 0⟩ false
    rfl rfl rfl rfl rfl

end Shawty
